import Mathlib

/-!
# Streamr contract — verification of the stream/subscription accounting engine

Shallow embedding of `src/contracts/streamer/src/lib.rs` (Soroban contract
`Streamer`). Conventions:

* `i128` quantities are modelled as `Int` with explicit saturating operations
  (`satAdd`, `satSub`, `satMul`) clamping at `±2^127`, mirroring Rust's
  `i128::saturating_add/sub/mul` used by the source.
* `u64` timestamps are modelled as `Nat`; `u64` subtraction is modelled as the
  wrapping subtraction `u64sub` (two's complement wrap at `2^64`), so the
  embedding is faithful even when the source's unguarded `now - start_time`
  would underflow.
* Soroban `Map<Address, V>` with `.get(k).unwrap_or(d)` / `.set(k, v)` is
  modelled as `Nat → Option V` with `getD`-reads and pointwise update `mset`
  (addresses are abstracted to `Nat`).
* Host interactions (storage fetch, `require_auth`, token transfer, events)
  are external per the spec; each operation takes the loaded record and the
  ledger timestamp as arguments and returns `Except Err` — a `panic!()` in the
  source is an `.error` (the whole call aborts with no state change), a
  successful call returns the transferred amount(s) and the record written
  back.  The token-transfer primitive itself is assumed to succeed (its
  failure likewise aborts the whole call with no state change).
-/

set_option maxRecDepth 8000

namespace Streamr

/-! ## Machine arithmetic -/

def I128_MAX : Int := 2 ^ 127 - 1
def I128_MIN : Int := -(2 ^ 127)

/-- Clamp an integer into the `i128` range (used by `i128::saturating_*`). -/
def satClamp (x : Int) : Int := max I128_MIN (min x I128_MAX)

/-- `i128::saturating_add`. -/
def satAdd (a b : Int) : Int := satClamp (a + b)

/-- `i128::saturating_sub`. -/
def satSub (a b : Int) : Int := satClamp (a - b)

/-- `i128::saturating_mul`. -/
def satMul (a b : Int) : Int := satClamp (a * b)

def U64_SIZE : Nat := 2 ^ 64

/-- Wrapping `u64` subtraction (for arguments `< 2^64`). -/
def u64sub (a b : Nat) : Nat := (a + U64_SIZE - b) % U64_SIZE

/-- Wrapping `u64` addition (for arguments `< 2^64`). -/
def u64add (a b : Nat) : Nat := (a + b) % U64_SIZE

/-- Wrapping `u64` multiplication (for arguments `< 2^64`). -/
def u64mul (a b : Nat) : Nat := (a * b) % U64_SIZE

/-! ## Errors

The source aborts with `panic!()`; the conditions map onto the contract's
declared `Error` enum / the spec's §7 taxonomy as named below. -/

inductive Err where
  | invalidParameters
  | streamInactive
  | notRecipient
  | nothingToWithdraw
  | subscriptionInactive
  | notDueYet
  | insufficientBalance
  deriving DecidableEq

/-! ## Data model -/

/-- Pointwise update of an embedded `Map` (Soroban `Map::set`). -/
def mset {α : Type} (m : Nat → Option α) (k : Nat) (v : α) : Nat → Option α :=
  fun k' => if k' = k then some v else m k'

/-- `struct Stream` from the source (metadata/text fields are out of scope). -/
structure Stream where
  id : Nat
  sender : Nat
  recipients : List Nat
  recipient_rate_per_second : Nat → Option Int
  deposit : Int
  start_time : Nat
  recipient_last_withdraw : Nat → Option Nat
  recipient_total_withdrawn : Nat → Option Int
  is_active : Bool

/-- `struct Subscription` from the source (metadata fields out of scope). -/
structure Subscription where
  id : Nat
  subscriber : Nat
  receiver : Nat
  amount_per_interval : Int
  interval_seconds : Nat
  next_payment_time : Nat
  active : Bool
  balance : Int

/-- `stream.recipient_rate_per_second.get(r).unwrap_or(0)`. -/
def rateOf (s : Stream) (r : Nat) : Int :=
  (s.recipient_rate_per_second r).getD 0

/-- `stream.recipient_last_withdraw.get(r).unwrap_or(stream.start_time)`. -/
def lastW (s : Stream) (r : Nat) : Nat :=
  (s.recipient_last_withdraw r).getD s.start_time

/-- `stream.recipient_total_withdrawn.get(r).unwrap_or(0)`. -/
def totW (s : Stream) (r : Nat) : Int :=
  (s.recipient_total_withdrawn r).getD 0

/-! ## Stream accrual engine -/

/-- The loop summing per-recipient rates with `saturating_add`
(`total_outflow_rate` in `withdraw_stream`, `cancel_stream` and the queries). -/
def total_outflow_rate (s : Stream) : Int :=
  s.recipients.foldl (fun acc r => satAdd acc (rateOf s r)) 0

/-- `total_distributed = total_elapsed_from_start.saturating_mul(total_outflow_rate)`. -/
def total_distributed (s : Stream) (now : Nat) : Int :=
  satMul ((u64sub now s.start_time : Nat) : Int) (total_outflow_rate s)

/-- `remaining_deposit = stream.deposit.saturating_sub(total_distributed)`. -/
def remaining_deposit (s : Stream) (now : Nat) : Int :=
  satSub s.deposit (total_distributed s now)

/-- The payable amount of `withdraw_stream`:
`min(recipient_accrued, remaining_deposit)` with
`recipient_accrued = elapsed.saturating_mul(rate_i)`. -/
def payable_amount (s : Stream) (r : Nat) (now : Nat) : Int :=
  min (satMul ((u64sub now (lastW s r) : Nat) : Int) (rateOf s r))
    (remaining_deposit s now)

/-- The record written back by a successful (transferring) `withdraw_stream`. -/
def withdraw_apply (s : Stream) (r : Nat) (now : Nat) : Stream :=
  let transfer_amount := payable_amount s r now
  let new_total := satAdd (totW s r) transfer_amount
  let new_remaining := satSub (remaining_deposit s now) transfer_amount
  { s with
    recipient_last_withdraw := mset s.recipient_last_withdraw r now
    recipient_total_withdrawn := mset s.recipient_total_withdrawn r new_total
    is_active := if new_remaining ≤ 0 then false else s.is_active }

/-- `withdraw_stream` (source lines 284–389).  Returns the transferred amount
and the updated record; a transfer to `recipient` happens exactly when the
returned amount is positive (the `now ≤ last_withdraw` branch returns `0`
without transferring). -/
def withdraw_stream (s : Stream) (recipient : Nat) (now : Nat) :
    Except Err (Int × Stream) :=
  if s.is_active = false then .error .streamInactive
  else if recipient ∉ s.recipients then .error .notRecipient
  else
    let last_withdraw := lastW s recipient
    if now ≤ last_withdraw then .ok (0, s)
    else
      let rate_i := rateOf s recipient
      if rate_i ≤ 0 then .error .invalidParameters
      else
        let elapsed : Int := ((u64sub now last_withdraw : Nat) : Int)
        let recipient_accrued := satMul elapsed rate_i
        let transfer_amount := min recipient_accrued (remaining_deposit s now)
        if transfer_amount ≤ 0 then .error .nothingToWithdraw
        else .ok (transfer_amount, withdraw_apply s recipient now)

/-- `cancel_stream` (source lines 393–439).  The first component is the refund
transfer to the sender: `some amount` iff `remaining_deposit > 0`. -/
def cancel_stream (s : Stream) (now : Nat) : Except Err (Option Int × Stream) :=
  if s.is_active = false then .error .streamInactive
  else
    let remaining := remaining_deposit s now
    let refund := if 0 < remaining then some remaining else none
    .ok (refund, { s with is_active := false, deposit := 0 })

/-- The per-recipient loop of `create_stream` (source lines 197–212): checks
`amt > 0` and that the derived truncating rate `amt / period_seconds` is
positive, and populates the rate and total-withdrawn maps. -/
def derive_rates (period_seconds : Nat) :
    List (Nat × Int) → (Nat → Option Int) → (Nat → Option Int) →
    Except Err ((Nat → Option Int) × (Nat → Option Int))
  | [], rates, totals => .ok (rates, totals)
  | (recipient, amt) :: rest, rates, totals =>
    if amt ≤ 0 then .error .invalidParameters
    else
      let rate_i : Int := amt / (period_seconds : Int)
      if rate_i ≤ 0 then .error .invalidParameters
      else derive_rates period_seconds rest (mset rates recipient rate_i)
        (mset totals recipient 0)

/-- `create_stream` (source lines 135–279).  The pairwise duplicate scan is
modelled by the equivalent `Nodup` check; the deposit transfer from the sender
precedes persistence and its failure aborts creation. -/
def create_stream (id : Nat) (sender : Nat) (recipients : List Nat)
    (amounts_per_period : List Int) (period_seconds : Nat) (deposit : Int)
    (now : Nat) : Except Err Stream :=
  if recipients.length = 0 then .error .invalidParameters
  else if recipients.length ≠ amounts_per_period.length then .error .invalidParameters
  else if ¬ recipients.Nodup then .error .invalidParameters
  else if period_seconds = 0 ∨ deposit ≤ 0 then .error .invalidParameters
  else
    match derive_rates period_seconds (recipients.zip amounts_per_period)
        (fun _ => none) (fun _ => none) with
    | .error e => .error e
    | .ok (rates, totals) =>
      .ok { id := id, sender := sender, recipients := recipients,
            recipient_rate_per_second := rates, deposit := deposit,
            start_time := now, recipient_last_withdraw := fun _ => none,
            recipient_total_withdrawn := totals, is_active := true }

/-! ## Subscription billing engine -/

/-- `deposit_to_subscription` (source lines 447–475). -/
def deposit_to_subscription (sub : Subscription) (amount : Int) :
    Except Err Subscription :=
  if amount ≤ 0 then .error .invalidParameters
  else .ok { sub with balance := satAdd sub.balance amount }

/-- `charge_subscription` (source lines 579–633).  Returns the amount
transferred to the receiver and the updated record. -/
def charge_subscription (sub : Subscription) (now : Nat) :
    Except Err (Int × Subscription) :=
  if sub.active = false then .error .subscriptionInactive
  else if now < sub.next_payment_time then .error .notDueYet
  else
    let due_intervals : Nat :=
      if u64add sub.next_payment_time sub.interval_seconds ≤ now then
        u64add ((u64sub now sub.next_payment_time) / sub.interval_seconds) 1
      else 1
    let amount_to_transfer := satMul sub.amount_per_interval (due_intervals : Int)
    if sub.balance < amount_to_transfer then .error .insufficientBalance
    else
      .ok (amount_to_transfer,
        { sub with
          balance := satSub sub.balance amount_to_transfer
          next_payment_time :=
            u64add sub.next_payment_time (u64mul due_intervals sub.interval_seconds) })

/-- `cancel_subscription` (source lines 637–671).  Never fails (beyond the
out-of-model not-found/auth); first component is the refund transfer to the
subscriber, executed iff the balance is positive. -/
def cancel_subscription (sub : Subscription) : Option Int × Subscription :=
  let refund := if 0 < sub.balance then some sub.balance else none
  (refund, { sub with balance := 0, active := false })

/-! ## Arithmetic lemmas -/

lemma I128_MAX_pos : 0 < I128_MAX := by norm_num [I128_MAX]

lemma I128_MIN_neg : I128_MIN < 0 := by norm_num [I128_MIN]

lemma satClamp_le_max (x : Int) : satClamp x ≤ I128_MAX := by
  unfold satClamp I128_MIN I128_MAX; omega

lemma satClamp_eq_self {x : Int} (h1 : I128_MIN ≤ x) (h2 : x ≤ I128_MAX) :
    satClamp x = x := by
  unfold satClamp I128_MIN I128_MAX at *; omega

lemma satClamp_nonneg {x : Int} (h : 0 ≤ x) : 0 ≤ satClamp x := by
  unfold satClamp I128_MIN I128_MAX; omega

lemma satClamp_le {x : Int} (h : I128_MIN ≤ x) : satClamp x ≤ x := by
  unfold satClamp I128_MIN I128_MAX at *; omega

lemma satClamp_eq_min {x : Int} (h : 0 ≤ x) : satClamp x = min x I128_MAX := by
  unfold satClamp I128_MIN I128_MAX; omega

lemma satMul_eq_min {a b : Int} (ha : 0 ≤ a) (hb : 0 ≤ b) :
    satMul a b = min (a * b) I128_MAX :=
  satClamp_eq_min (mul_nonneg ha hb)

lemma satMul_nonneg {a b : Int} (ha : 0 ≤ a) (hb : 0 ≤ b) : 0 ≤ satMul a b :=
  satClamp_nonneg (mul_nonneg ha hb)

lemma satMul_le_mul {a b : Int} (ha : 0 ≤ a) (hb : 0 ≤ b) : satMul a b ≤ a * b :=
  satClamp_le (le_trans I128_MIN_neg.le (mul_nonneg ha hb))

lemma satMul_le_max (a b : Int) : satMul a b ≤ I128_MAX := satClamp_le_max _

lemma satAdd_eq_min {a b : Int} (h : 0 ≤ a + b) : satAdd a b = min (a + b) I128_MAX :=
  satClamp_eq_min h

lemma satAdd_nonneg {a b : Int} (ha : 0 ≤ a) (hb : 0 ≤ b) : 0 ≤ satAdd a b :=
  satClamp_nonneg (by omega)

lemma satAdd_le_add {a b : Int} (h : 0 ≤ a + b) : satAdd a b ≤ a + b :=
  satClamp_le (le_trans I128_MIN_neg.le h)

lemma satAdd_le_max (a b : Int) : satAdd a b ≤ I128_MAX := satClamp_le_max _

lemma satSub_eq {a b : Int} (ha0 : 0 ≤ a) (haM : a ≤ I128_MAX) (hb0 : 0 ≤ b)
    (hbM : b ≤ I128_MAX) : satSub a b = a - b := by
  have := I128_MIN_neg; have := I128_MAX_pos
  unfold satSub satClamp I128_MIN I128_MAX at *
  omega

lemma u64sub_eq {a b : Nat} (hba : b ≤ a) (ha : a < U64_SIZE) : u64sub a b = a - b := by
  unfold u64sub
  have h : a + U64_SIZE - b = (a - b) + U64_SIZE := by omega
  rw [h, Nat.add_mod_right, Nat.mod_eq_of_lt (by omega)]

lemma u64add_eq {a b : Nat} (h : a + b < U64_SIZE) : u64add a b = a + b :=
  Nat.mod_eq_of_lt h

lemma u64mul_eq {a b : Nat} (h : a * b < U64_SIZE) : u64mul a b = a * b :=
  Nat.mod_eq_of_lt h

/-! ## Characterization of `withdraw_stream` -/

lemma withdraw_stream_inactive {s : Stream} (r now : Nat)
    (h : s.is_active = false) :
    withdraw_stream s r now = .error .streamInactive := by
  simp [withdraw_stream, h]

lemma withdraw_stream_noop {s : Stream} {r : Nat} (now : Nat)
    (ha : s.is_active = true) (hm : r ∈ s.recipients) (hle : now ≤ lastW s r) :
    withdraw_stream s r now = .ok (0, s) := by
  simp [withdraw_stream, ha, hm, hle]

lemma withdraw_stream_run {s : Stream} {r now : Nat}
    (ha : s.is_active = true) (hm : r ∈ s.recipients)
    (hgt : lastW s r < now) (hrate : 0 < rateOf s r) :
    withdraw_stream s r now =
      if payable_amount s r now ≤ 0 then .error .nothingToWithdraw
      else .ok (payable_amount s r now, withdraw_apply s r now) := by
  simp [withdraw_stream, ha, hm, Nat.not_le.mpr hgt, not_le.mpr hrate,
    payable_amount]

/-- Inversion: what a successful `withdraw_stream` call implies. -/
lemma withdraw_stream_ok_inv {s : Stream} {r now : Nat} {a : Int} {s' : Stream}
    (h : withdraw_stream s r now = .ok (a, s')) :
    s.is_active = true ∧ r ∈ s.recipients ∧
    ((now ≤ lastW s r ∧ a = 0 ∧ s' = s) ∨
      (lastW s r < now ∧ 0 < rateOf s r ∧ a = payable_amount s r now ∧
        0 < a ∧ s' = withdraw_apply s r now)) := by
  by_cases ha : s.is_active = true
  · by_cases hm : r ∈ s.recipients
    · by_cases hle : now ≤ lastW s r
      · rw [withdraw_stream_noop now ha hm hle] at h
        refine ⟨ha, hm, .inl ⟨hle, ?_, ?_⟩⟩ <;>
          [exact (Prod.mk.injEq _ _ _ _ ▸ (Except.ok.injEq _ _ ▸ h)).1.symm;
            exact (Prod.mk.injEq _ _ _ _ ▸ (Except.ok.injEq _ _ ▸ h)).2.symm]
      · by_cases hrate : 0 < rateOf s r
        · rw [withdraw_stream_run ha hm (Nat.not_le.mp hle) hrate] at h
          by_cases hpos : payable_amount s r now ≤ 0
          · rw [if_pos hpos] at h; cases h
          · rw [if_neg hpos] at h
            have h1 := (Prod.mk.injEq _ _ _ _ ▸ (Except.ok.injEq _ _ ▸ h)).1.symm
            have h2 := (Prod.mk.injEq _ _ _ _ ▸ (Except.ok.injEq _ _ ▸ h)).2.symm
            exact ⟨ha, hm, .inr ⟨Nat.not_le.mp hle, hrate, h1,
              h1 ▸ not_le.mp hpos, h2⟩⟩
        · have : withdraw_stream s r now = .error .invalidParameters := by
            simp [withdraw_stream, ha, hm, Nat.not_le.mp hle, not_lt.mp hrate]
          rw [this] at h; cases h
    · have : withdraw_stream s r now = .error .notRecipient := by
        simp [withdraw_stream, ha, hm]
      rw [this] at h; cases h
  · rw [withdraw_stream_inactive r now (Bool.not_eq_true _ ▸ ha)] at h; cases h

/-! ## The deposit-conservation invariant (claim C1)

The spec's Σ over recipients and the mathematical (non-saturating) rate sum,
used to state the invariant. -/

/-- `Σ total_withdrawn[r]` over the stream's recipients. -/
def sum_totals (s : Stream) : Int := (s.recipients.map (totW s)).sum

/-- The mathematical (non-saturating) sum of the per-recipient rates. -/
def rate_sum (s : Stream) : Int := (s.recipients.map (rateOf s)).sum

lemma foldl_satAdd_eq_min (f : Nat → Int) :
    ∀ (l : List Nat), (∀ r ∈ l, 0 ≤ f r) → ∀ acc : Int, 0 ≤ acc → acc ≤ I128_MAX →
      l.foldl (fun acc r => satAdd acc (f r)) acc = min (acc + (l.map f).sum) I128_MAX
  | [], _, acc, _, hM => by simp [min_eq_left, hM]
  | x :: xs, hf, acc, h0, hM => by
    have hx : 0 ≤ f x := hf x (List.mem_cons_self x xs)
    have hxs : ∀ r ∈ xs, 0 ≤ f r := fun r hr => hf r (List.mem_cons_of_mem x hr)
    have hsum : 0 ≤ (xs.map f).sum :=
      List.sum_nonneg (by intro y hy; obtain ⟨r, hr, rfl⟩ := List.mem_map.mp hy; exact hxs r hr)
    have hacc' : satAdd acc (f x) = min (acc + f x) I128_MAX := satAdd_eq_min (by omega)
    rw [List.foldl_cons,
      foldl_satAdd_eq_min f xs hxs (satAdd acc (f x)) (satAdd_nonneg h0 hx) (satAdd_le_max _ _),
      hacc', List.map_cons, List.sum_cons]
    have := I128_MAX_pos
    omega

lemma rate_sum_nonneg {s : Stream} (h : ∀ r ∈ s.recipients, 0 ≤ rateOf s r) :
    0 ≤ rate_sum s :=
  List.sum_nonneg (by intro y hy; obtain ⟨r, hr, rfl⟩ := List.mem_map.mp hy; exact h r hr)

lemma total_outflow_rate_eq {s : Stream} (h : ∀ r ∈ s.recipients, 0 ≤ rateOf s r) :
    total_outflow_rate s = min (rate_sum s) I128_MAX := by
  unfold total_outflow_rate
  rw [foldl_satAdd_eq_min (rateOf s) s.recipients h 0 le_rfl I128_MAX_pos.le]
  simp [rate_sum]

lemma total_outflow_rate_nonneg {s : Stream} (h : ∀ r ∈ s.recipients, 0 ≤ rateOf s r) :
    0 ≤ total_outflow_rate s := by
  rw [total_outflow_rate_eq h]
  exact le_min (rate_sum_nonneg h) I128_MAX_pos.le

/-- Well-formedness of a stream record at a time bound `T`: the state produced
by `create_stream` satisfies it at `start_time`, and every withdrawal at a
time `≥ T` preserves it.  The fields are the inductive invariant behind C1. -/
structure WF (s : Stream) (T : Nat) : Prop where
  deposit_nonneg : 0 ≤ s.deposit
  deposit_le : s.deposit ≤ I128_MAX
  rate_pos : ∀ r ∈ s.recipients, 0 < rateOf s r
  start_le : s.start_time ≤ T
  lt_u64 : T < U64_SIZE
  last_ge : ∀ r ∈ s.recipients, s.start_time ≤ lastW s r
  last_le : ∀ r ∈ s.recipients, lastW s r ≤ T
  tot_nonneg : ∀ r ∈ s.recipients, 0 ≤ totW s r
  tot_le : ∀ r ∈ s.recipients,
    totW s r ≤ ((lastW s r : Int) - (s.start_time : Int)) * rateOf s r
  sum_le : sum_totals s ≤ s.deposit

lemma WF.rate_nonneg {s : Stream} {T : Nat} (hwf : WF s T) :
    ∀ r ∈ s.recipients, 0 ≤ rateOf s r :=
  fun r hr => (hwf.rate_pos r hr).le

lemma WF.mono {s : Stream} {T T' : Nat} (hwf : WF s T) (hT : T ≤ T')
    (h' : T' < U64_SIZE) : WF s T' where
  deposit_nonneg := hwf.deposit_nonneg
  deposit_le := hwf.deposit_le
  rate_pos := hwf.rate_pos
  start_le := le_trans hwf.start_le hT
  lt_u64 := h'
  last_ge := hwf.last_ge
  last_le := fun r hr => le_trans (hwf.last_le r hr) hT
  tot_nonneg := hwf.tot_nonneg
  tot_le := hwf.tot_le
  sum_le := hwf.sum_le

lemma total_distributed_nonneg {s : Stream} (now : Nat)
    (h : ∀ r ∈ s.recipients, 0 ≤ rateOf s r) :
    0 ≤ total_distributed s now :=
  satMul_nonneg (Int.natCast_nonneg _) (total_outflow_rate_nonneg h)

/-- Under well-formedness the saturating subtraction in `remaining_deposit`
is exact. -/
lemma remaining_deposit_eq_sub {s : Stream} {T now : Nat} (hwf : WF s T)
    (_hT : T ≤ now) :
    remaining_deposit s now = s.deposit - total_distributed s now := by
  unfold remaining_deposit
  exact satSub_eq hwf.deposit_nonneg hwf.deposit_le
    (total_distributed_nonneg now hwf.rate_nonneg) (satMul_le_max _ _)

/-- The elapsed-time cast used throughout: under the time bounds, the wrapped
`u64` subtraction is plain subtraction. -/
lemma elapsed_cast {s : Stream} {T now : Nat} (hwf : WF s T) (hT : T ≤ now)
    (hnow : now < U64_SIZE) :
    ((u64sub now s.start_time : Nat) : Int) = (now : Int) - (s.start_time : Int) := by
  rw [u64sub_eq (le_trans hwf.start_le hT) hnow,
    Nat.cast_sub (le_trans hwf.start_le hT)]

/-- Pointwise invariant ⇒ the spec's Σ is bounded by elapsed time times the
mathematical rate sum. -/
lemma sum_totals_le_mul {s : Stream} {T now : Nat} (hwf : WF s T)
    (hT : T ≤ now) :
    sum_totals s ≤ ((now : Int) - (s.start_time : Int)) * rate_sum s := by
  have h1 : sum_totals s ≤
      (s.recipients.map (fun r => ((now : Int) - (s.start_time : Int)) * rateOf s r)).sum := by
    refine List.sum_le_sum ?_
    intro r hr
    refine le_trans (hwf.tot_le r hr) ?_
    have hlast : ((lastW s r : Int)) ≤ (now : Int) :=
      Int.ofNat_le.mpr (le_trans (hwf.last_le r hr) hT)
    exact mul_le_mul_of_nonneg_right (by omega) (hwf.rate_nonneg r hr)
  rw [List.sum_map_mul_left] at h1
  exact h1

/-- Σ `total_withdrawn` never exceeds the saturating `total_distributed`. -/
lemma sum_totals_le_distributed {s : Stream} {T now : Nat} (hwf : WF s T)
    (hT : T ≤ now) (hnow : now < U64_SIZE) :
    sum_totals s ≤ total_distributed s now := by
  have hM := I128_MAX_pos
  have hstart : s.start_time ≤ now := le_trans hwf.start_le hT
  have he : (0 : Int) ≤ (now : Int) - (s.start_time : Int) := by
    have := Int.ofNat_le.mpr hstart; omega
  have hR : 0 ≤ rate_sum s := rate_sum_nonneg hwf.rate_nonneg
  have hD : total_distributed s now =
      min (((now : Int) - (s.start_time : Int)) * min (rate_sum s) I128_MAX) I128_MAX := by
    unfold total_distributed
    rw [total_outflow_rate_eq hwf.rate_nonneg, elapsed_cast hwf hT hnow,
      satMul_eq_min he (le_min hR hM.le)]
  have hmul := sum_totals_le_mul hwf hT
  have hsum := hwf.sum_le
  have hdep := hwf.deposit_le
  rcases le_or_lt (rate_sum s) I128_MAX with hcase | hcase
  · rw [min_eq_left hcase] at hD
    rcases le_or_lt (((now : Int) - (s.start_time : Int)) * rate_sum s) I128_MAX with h2 | h2
    · rw [hD, min_eq_left h2]; exact hmul
    · rw [hD, min_eq_right h2.le]; omega
  · rw [min_eq_right hcase.le] at hD
    rcases eq_or_lt_of_le he with he0 | he1
    · have : ((now : Int) - (s.start_time : Int)) * rate_sum s = 0 := by
        rw [← he0]; ring
      rw [hD, ← he0]
      simp only [zero_mul, min_eq_left hM.le]
      omega
    · have h1le : (1 : Int) ≤ (now : Int) - (s.start_time : Int) := he1
      have : I128_MAX ≤ ((now : Int) - (s.start_time : Int)) * I128_MAX :=
        le_mul_of_one_le_left hM.le h1le
      rw [hD, min_eq_right this]
      omega

/-- Conservation at any time `now ≥ T` for a well-formed state. -/
lemma conservation_now {s : Stream} {T now : Nat} (hwf : WF s T)
    (hT : T ≤ now) (hnow : now < U64_SIZE) :
    sum_totals s + remaining_deposit s now ≤ s.deposit := by
  rw [remaining_deposit_eq_sub hwf hT]
  have := sum_totals_le_distributed hwf hT hnow
  omega

/-! ### Frame lemmas for `withdraw_apply` -/

lemma withdraw_apply_recipients (s : Stream) (r now : Nat) :
    (withdraw_apply s r now).recipients = s.recipients := rfl

lemma withdraw_apply_deposit (s : Stream) (r now : Nat) :
    (withdraw_apply s r now).deposit = s.deposit := rfl

lemma withdraw_apply_start_time (s : Stream) (r now : Nat) :
    (withdraw_apply s r now).start_time = s.start_time := rfl

lemma rateOf_withdraw_apply (s : Stream) (r now x : Nat) :
    rateOf (withdraw_apply s r now) x = rateOf s x := rfl

lemma total_outflow_rate_withdraw_apply (s : Stream) (r now : Nat) :
    total_outflow_rate (withdraw_apply s r now) = total_outflow_rate s := rfl

lemma remaining_deposit_withdraw_apply (s : Stream) (r now t : Nat) :
    remaining_deposit (withdraw_apply s r now) t = remaining_deposit s t := rfl

lemma rate_sum_withdraw_apply (s : Stream) (r now : Nat) :
    rate_sum (withdraw_apply s r now) = rate_sum s := rfl

lemma lastW_withdraw_apply (s : Stream) (r now x : Nat) :
    lastW (withdraw_apply s r now) x = if x = r then now else lastW s x := by
  unfold lastW withdraw_apply mset
  by_cases h : x = r <;> simp [h]

lemma totW_withdraw_apply (s : Stream) (r now x : Nat) :
    totW (withdraw_apply s r now) x =
      if x = r then satAdd (totW s r) (payable_amount s r now) else totW s x := by
  unfold totW withdraw_apply mset
  by_cases h : x = r <;> simp [h, totW]

/-! ### Preservation of `WF` by withdrawals -/

/-- In a state admitting a positive payable amount, no saturation is live:
`total_distributed` equals the exact product with the exact rate sum. -/
lemma success_distributed_eq {s : Stream} {T now : Nat} (hwf : WF s T)
    (hT : T ≤ now) (hnow : now < U64_SIZE) (hstart : s.start_time < now)
    (hrem : 0 < remaining_deposit s now) :
    total_distributed s now = ((now : Int) - (s.start_time : Int)) * rate_sum s := by
  have hM := I128_MAX_pos
  have he : (1 : Int) ≤ (now : Int) - (s.start_time : Int) := by
    have := Int.ofNat_lt.mpr hstart; omega
  have hR : 0 ≤ rate_sum s := rate_sum_nonneg hwf.rate_nonneg
  have hD : total_distributed s now =
      min (((now : Int) - (s.start_time : Int)) * min (rate_sum s) I128_MAX) I128_MAX := by
    unfold total_distributed
    rw [total_outflow_rate_eq hwf.rate_nonneg, elapsed_cast hwf hT hnow,
      satMul_eq_min (by omega) (le_min hR hM.le)]
  have hDlt : total_distributed s now < I128_MAX := by
    rw [remaining_deposit_eq_sub hwf hT] at hrem
    have := hwf.deposit_le
    omega
  rcases le_or_lt (rate_sum s) I128_MAX with hcase | hcase
  · rw [min_eq_left hcase] at hD
    rcases le_or_lt (((now : Int) - (s.start_time : Int)) * rate_sum s) I128_MAX with h2 | h2
    · rw [hD, min_eq_left h2]
    · rw [hD, min_eq_right h2.le] at hDlt; omega
  · rw [min_eq_right hcase.le] at hD
    have : I128_MAX ≤ ((now : Int) - (s.start_time : Int)) * I128_MAX :=
      le_mul_of_one_le_left hM.le he
    rw [hD, min_eq_right this] at hDlt
    omega

lemma WF_withdraw_apply {s : Stream} {T r now : Nat} (hwf : WF s T)
    (hT : T ≤ now) (hnow : now < U64_SIZE) (hm : r ∈ s.recipients)
    (hgt : lastW s r < now) (hpos : 0 < payable_amount s r now) :
    WF (withdraw_apply s r now) now := by
  have hstart : s.start_time < now := lt_of_le_of_lt (hwf.last_ge r hm) hgt
  have hrem : 0 < remaining_deposit s now :=
    lt_of_lt_of_le hpos (min_le_right _ _)
  have haccr : payable_amount s r now ≤ ((now : Int) - (lastW s r : Int)) * rateOf s r := by
    refine le_trans (min_le_left _ _) ?_
    have hsub : ((u64sub now (lastW s r) : Nat) : Int) =
        (now : Int) - (lastW s r : Int) := by
      rw [u64sub_eq hgt.le hnow, Nat.cast_sub hgt.le]
    rw [hsub]
    exact satMul_le_mul (by have := Int.ofNat_lt.mpr hgt; omega) (hwf.rate_nonneg r hm)
  refine ⟨hwf.deposit_nonneg, hwf.deposit_le, ?_, hstart.le, hnow, ?_, ?_, ?_, ?_, ?_⟩
  · intro x hx
    rw [withdraw_apply_recipients] at hx
    rw [rateOf_withdraw_apply]
    exact hwf.rate_pos x hx
  · intro x hx
    rw [withdraw_apply_recipients] at hx
    rw [lastW_withdraw_apply, withdraw_apply_start_time]
    by_cases h : x = r
    · simp [h, hstart.le]
    · simp [h, hwf.last_ge x hx]
  · intro x hx
    rw [withdraw_apply_recipients] at hx
    rw [lastW_withdraw_apply]
    by_cases h : x = r
    · simp [h]
    · simp [h]; exact le_trans (hwf.last_le x hx) hT
  · intro x hx
    rw [withdraw_apply_recipients] at hx
    rw [totW_withdraw_apply]
    by_cases h : x = r
    · simp only [h, if_pos rfl]
      exact satAdd_nonneg (hwf.tot_nonneg r hm) hpos.le
    · simp only [if_neg h]
      exact hwf.tot_nonneg x hx
  · intro x hx
    rw [withdraw_apply_recipients] at hx
    rw [totW_withdraw_apply, lastW_withdraw_apply, withdraw_apply_start_time,
      rateOf_withdraw_apply]
    by_cases h : x = r
    · rw [if_pos h, if_pos h]
      subst h
      have h1 : satAdd (totW s x) (payable_amount s x now) ≤
          totW s x + payable_amount s x now :=
        satAdd_le_add (by have := hwf.tot_nonneg x hm; omega)
      refine le_trans h1 ?_
      have h2 := hwf.tot_le x hm
      have key : ((lastW s x : Int) - (s.start_time : Int)) * rateOf s x +
          ((now : Int) - (lastW s x : Int)) * rateOf s x =
          ((now : Int) - (s.start_time : Int)) * rateOf s x := by ring
      have := add_le_add h2 haccr
      omega
    · rw [if_neg h, if_neg h]
      exact hwf.tot_le x hx
  · -- sum_le: the new Σ is bounded by the exact distributed amount, which the
    -- positive remaining deposit bounds by the deposit.
    have hwf' : ∀ x ∈ s.recipients,
        totW (withdraw_apply s r now) x ≤
          ((now : Int) - (s.start_time : Int)) * rateOf s x := by
      intro x hx
      rw [totW_withdraw_apply]
      by_cases h : x = r
      · rw [if_pos h]
        subst h
        have h1 : satAdd (totW s x) (payable_amount s x now) ≤
            totW s x + payable_amount s x now :=
          satAdd_le_add (by have := hwf.tot_nonneg x hm; omega)
        have h2 := hwf.tot_le x hm
        have := add_le_add h2 haccr
        have key : ((lastW s x : Int) - (s.start_time : Int)) * rateOf s x +
            ((now : Int) - (lastW s x : Int)) * rateOf s x =
            ((now : Int) - (s.start_time : Int)) * rateOf s x := by ring
        omega
      · rw [if_neg h]
        refine le_trans (hwf.tot_le x hx) ?_
        have hlast : ((lastW s x : Int)) ≤ (now : Int) :=
          Int.ofNat_le.mpr (le_trans (hwf.last_le x hx) hT)
        exact mul_le_mul_of_nonneg_right (by omega) (hwf.rate_nonneg x hx)
    have hsum : sum_totals (withdraw_apply s r now) ≤
        ((now : Int) - (s.start_time : Int)) * rate_sum s := by
      unfold sum_totals
      rw [withdraw_apply_recipients]
      have h1 := List.sum_le_sum hwf'
      rw [List.sum_map_mul_left] at h1
      exact h1
    have hdist := success_distributed_eq hwf hT hnow hstart hrem
    have hremeq := remaining_deposit_eq_sub hwf hT
    rw [withdraw_apply_deposit]
    omega

/-! ### Traces of withdrawals -/

/-- One withdrawal attempt: on error the call aborts and the stored record is
unchanged. -/
def applyOp (s : Stream) (op : Nat × Nat) : Stream :=
  match withdraw_stream s op.1 op.2 with
  | .ok (_, s') => s'
  | .error _ => s

/-- A sequence of withdrawal attempts applied to the stored record. -/
def run (s : Stream) (ops : List (Nat × Nat)) : Stream := ops.foldl applyOp s

/-- The timestamps of the operations are non-decreasing, start no earlier than
`t0`, fit in `u64`, and end no later than `now`. -/
def opsOK (t0 now : Nat) : List (Nat × Nat) → Prop
  | [] => t0 ≤ now
  | op :: rest => t0 ≤ op.2 ∧ op.2 < U64_SIZE ∧ opsOK op.2 now rest

lemma WF_applyOp {s : Stream} {T : Nat} (r t : Nat) (hwf : WF s T)
    (hT : T ≤ t) (ht : t < U64_SIZE) : WF (applyOp s (r, t)) t := by
  rcases h : withdraw_stream s r t with e | ⟨a, s'⟩
  · unfold applyOp
    rw [h]
    exact hwf.mono hT ht
  · unfold applyOp
    rw [h]
    obtain ⟨ha, hm, hcase⟩ := withdraw_stream_ok_inv h
    rcases hcase with ⟨_, _, rfl⟩ | ⟨hgt, hrate, haeq, hpos, rfl⟩
    · exact hwf.mono hT ht
    · exact WF_withdraw_apply hwf hT ht hm hgt (haeq ▸ hpos)

lemma WF_run {now : Nat} :
    ∀ (ops : List (Nat × Nat)) (s : Stream) (T : Nat), WF s T → opsOK T now ops →
      ∃ T', WF (run s ops) T' ∧ T' ≤ now
  | [], s, T, hwf, hops => ⟨T, hwf, hops⟩
  | (r, t) :: rest, s, T, hwf, hops => by
    obtain ⟨h1, h2, h3⟩ := hops
    have hwf' := WF_applyOp r t hwf h1 h2
    exact WF_run rest (applyOp s (r, t)) t hwf' h3

lemma withdraw_stream_deposit {s : Stream} {r now : Nat} {a : Int} {s' : Stream}
    (h : withdraw_stream s r now = .ok (a, s')) : s'.deposit = s.deposit := by
  obtain ⟨_, _, hcase⟩ := withdraw_stream_ok_inv h
  rcases hcase with ⟨_, _, rfl⟩ | ⟨_, _, _, _, rfl⟩
  · rfl
  · rfl

lemma applyOp_deposit (s : Stream) (op : Nat × Nat) :
    (applyOp s op).deposit = s.deposit := by
  rcases h : withdraw_stream s op.1 op.2 with e | ⟨a, s'⟩
  · unfold applyOp; rw [h]
  · unfold applyOp; rw [h]; exact withdraw_stream_deposit h

lemma run_deposit : ∀ (ops : List (Nat × Nat)) (s : Stream),
    (run s ops).deposit = s.deposit
  | [], _ => rfl
  | op :: rest, s => by
    unfold run
    rw [List.foldl_cons]
    exact (run_deposit rest (applyOp s op)).trans (applyOp_deposit s op)

/-! ## Concrete example states (used by witnesses and counterexamples) -/

/-- Projection of a withdrawal result onto the transferred amount
(`none` means the call aborted). -/
def amountOf (res : Except Err (Int × Stream)) : Option Int :=
  match res with
  | .ok (a, _) => some a
  | .error _ => none

/-- The §8 example stream: recipients `1` and `2` with rates `10`/`20` per
second on a `10000`-unit deposit starting at time `0`. -/
def exampleStream : Stream :=
  { id := 1, sender := 0, recipients := [1, 2],
    recipient_rate_per_second := fun r =>
      if r = 1 then some 10 else if r = 2 then some 20 else none,
    deposit := 10000, start_time := 0,
    recipient_last_withdraw := fun _ => none,
    recipient_total_withdrawn := fun r => if r = 1 ∨ r = 2 then some 0 else none,
    is_active := true }

lemma exampleStream_wf : WF exampleStream 0 := by
  constructor <;> decide

/-- A single-recipient stream (recipient `3`, rate `10`/s, deposit `1000`,
start `0`) which a withdrawal at `t = 99` exhausts: it pays
`min(990, 1000 − 990) = 10` and drives `remaining − 10 ≤ 0`. -/
def exhaustStream : Stream :=
  { id := 2, sender := 0, recipients := [3],
    recipient_rate_per_second := fun r => if r = 3 then some 10 else none,
    deposit := 1000, start_time := 0,
    recipient_last_withdraw := fun _ => none,
    recipient_total_withdrawn := fun r => if r = 3 then some 0 else none,
    is_active := true }

/-! ## Claim C1 — deposit conservation -/

/-- Claim C1 (confirmed): for every well-formed stream state and every
sequence of withdrawal attempts at non-decreasing `u64` timestamps (failed
attempts leave the record unchanged, so in particular for every sequence of
*successful* withdrawals), the sum over all recipients of `total_withdrawn`
plus the live `remaining_deposit` computed at any `now` no earlier than the
last operation never exceeds the original deposit. -/
theorem deposit_conservation (s0 : Stream) (T0 now : Nat) (ops : List (Nat × Nat))
    (hwf : WF s0 T0) (hops : opsOK T0 now ops) (hnow : now < U64_SIZE) :
    sum_totals (run s0 ops) + remaining_deposit (run s0 ops) now ≤ s0.deposit := by
  obtain ⟨T', hwf', hT'⟩ := WF_run ops s0 T0 hwf hops
  have h := conservation_now hwf' hT' hnow
  rw [run_deposit ops s0] at h
  exact h

/-- Witness for C1: both recipients of the §8 stream withdraw at `t = 100`
(totals `1000` and `2000`); the invariant is tight there:
`3000 + 7000 = 10000`. -/
theorem deposit_conservation_witness :
    sum_totals (run exampleStream [(1, 100), (2, 100)]) +
        remaining_deposit (run exampleStream [(1, 100), (2, 100)]) 100 ≤
      exampleStream.deposit ∧
    sum_totals (run exampleStream [(1, 100), (2, 100)]) = 3000 ∧
    remaining_deposit (run exampleStream [(1, 100), (2, 100)]) 100 = 7000 :=
  ⟨deposit_conservation exampleStream 0 100 [(1, 100), (2, 100)] exampleStream_wf
      (by exact ⟨by norm_num, by norm_num [U64_SIZE], by norm_num, by norm_num [U64_SIZE],
        by norm_num [opsOK]⟩)
      (by norm_num [U64_SIZE]),
    by decide, by decide⟩

/-! ## Claim C2 — withdrawal amount -/

/-- The spec's payable formula, written with the spec's subtractions
`now − last` and `now − start_time` (saturating i128 arithmetic): used to
check the code's `u64`-level computation against the spec's words. -/
def spec_payable (s : Stream) (r : Nat) (now : Nat) : Int :=
  min (satMul ((now : Int) - (lastW s r : Int)) (rateOf s r))
    (satSub s.deposit (satMul ((now : Int) - (s.start_time : Int)) (total_outflow_rate s)))

/-- Claim C2 (confirmed): for every active well-formed stream, member
recipient and `now` strictly after that recipient's last withdrawal time,
`withdraw_stream` transfers and returns exactly
`min((now − last)·rate, deposit − (now − start)·Σ rate)` computed with
saturating i128 arithmetic, and aborts with `NothingToWithdraw` (no state
change — errors abort the call before any write-back) when that minimum
is `≤ 0`. -/
theorem withdraw_stream_amount (s : Stream) (T r now : Nat)
    (hwf : WF s T) (ha : s.is_active = true) (hm : r ∈ s.recipients)
    (hT : T ≤ now) (hnow : now < U64_SIZE) (hgt : lastW s r < now) :
    (0 < spec_payable s r now →
      withdraw_stream s r now = .ok (spec_payable s r now, withdraw_apply s r now)) ∧
    (spec_payable s r now ≤ 0 →
      withdraw_stream s r now = .error .nothingToWithdraw) := by
  have hrate := hwf.rate_pos r hm
  have heq : payable_amount s r now = spec_payable s r now := by
    unfold payable_amount spec_payable remaining_deposit total_distributed
    rw [u64sub_eq hgt.le hnow, Nat.cast_sub hgt.le, elapsed_cast hwf hT hnow]
  constructor
  · intro hpos
    rw [withdraw_stream_run ha hm hgt hrate, heq, if_neg (not_le.mpr hpos)]
  · intro hle
    rw [withdraw_stream_run ha hm hgt hrate, heq, if_pos hle]

/-- Witness for C2: recipient `1` of the §8 stream at `t = 100` receives
exactly `min(1000, 10000 − 3000) = 1000`. -/
theorem withdraw_stream_amount_witness :
    withdraw_stream exampleStream 1 100 =
      .ok (spec_payable exampleStream 1 100, withdraw_apply exampleStream 1 100) ∧
    spec_payable exampleStream 1 100 = 1000 :=
  ⟨((withdraw_stream_amount exampleStream 0 1 100 exampleStream_wf rfl
      (by decide) (by decide) (by decide) (by decide)).1 (by decide)),
    by decide⟩

/-! ## Claim C4 — cancellation refund -/

/-- The stream used by C4's witness: deposit `1000`, one recipient (`3`) at
rate `10`/s, `start_time = 5`, no prior withdrawals. -/
def cancelExampleStream : Stream :=
  { id := 3, sender := 9, recipients := [3],
    recipient_rate_per_second := fun r => if r = 3 then some 10 else none,
    deposit := 1000, start_time := 5,
    recipient_last_withdraw := fun _ => none,
    recipient_total_withdrawn := fun r => if r = 3 then some 0 else none,
    is_active := true }

lemma cancelExampleStream_wf : WF cancelExampleStream 5 := by
  constructor <;> decide

/-- Claim C4 (confirmed): for every active well-formed stream,
`cancel_stream` computes `remaining_deposit = deposit − (now − start)·Σ rate`
at the current time (exact subtraction; the product exact whenever it fits in
i128), transfers it to the sender exactly when it is positive, and
unconditionally writes back the record with `is_active = false` and
`deposit = 0`. -/
theorem cancel_stream_spec (s : Stream) (T now : Nat) (hwf : WF s T)
    (ha : s.is_active = true) (hT : T ≤ now) (hnow : now < U64_SIZE) :
    cancel_stream s now = .ok
      ((if 0 < remaining_deposit s now then some (remaining_deposit s now) else none),
        { s with is_active := false, deposit := 0 }) ∧
    remaining_deposit s now =
      s.deposit - satMul ((now : Int) - (s.start_time : Int)) (total_outflow_rate s) ∧
    (((now : Int) - (s.start_time : Int)) * rate_sum s ≤ I128_MAX →
      remaining_deposit s now =
        s.deposit - ((now : Int) - (s.start_time : Int)) * rate_sum s) := by
  have hM := I128_MAX_pos
  have hstart : s.start_time ≤ now := le_trans hwf.start_le hT
  have he : (0 : Int) ≤ (now : Int) - (s.start_time : Int) := by
    have := Int.ofNat_le.mpr hstart; omega
  have hR : 0 ≤ rate_sum s := rate_sum_nonneg hwf.rate_nonneg
  refine ⟨by simp [cancel_stream, ha], ?_, ?_⟩
  · rw [remaining_deposit_eq_sub hwf hT]
    unfold total_distributed
    rw [elapsed_cast hwf hT hnow]
  · intro hprod
    rw [remaining_deposit_eq_sub hwf hT]
    unfold total_distributed
    rw [total_outflow_rate_eq hwf.rate_nonneg, elapsed_cast hwf hT hnow,
      satMul_eq_min he (le_min hR hM.le)]
    rcases le_or_lt (rate_sum s) I128_MAX with h | h
    · rw [min_eq_left h, min_eq_left (min_eq_left h ▸ hprod)]
    · rcases eq_or_lt_of_le he with he0 | he1
      · rw [min_eq_right h.le, ← he0]
        simp [hM.le]
      · exfalso
        have h1 : rate_sum s ≤ ((now : Int) - (s.start_time : Int)) * rate_sum s :=
          le_mul_of_one_le_left hR he1
        omega

/-- Witness for C4: cancelling the example stream at `start_time + 50 = 55`
refunds exactly `1000 − 500 = 500` to the sender. -/
theorem cancel_stream_spec_witness :
    cancel_stream cancelExampleStream 55 = .ok
      ((if 0 < remaining_deposit cancelExampleStream 55 then
          some (remaining_deposit cancelExampleStream 55) else none),
        { cancelExampleStream with is_active := false, deposit := 0 }) ∧
    remaining_deposit cancelExampleStream 55 = 500 :=
  ⟨(cancel_stream_spec cancelExampleStream 5 55 cancelExampleStream_wf rfl
      (by decide) (by decide)).1,
    by decide⟩

/-! ## Claim C3 — subscription charge batching -/

/-- The spec's due-interval count: `1` if `now < next_payment_time +
interval_seconds`, else `(now − next_payment_time) / interval_seconds + 1`
with truncating division. -/
def due_intervals_spec (sub : Subscription) (now : Nat) : Nat :=
  if now < sub.next_payment_time + sub.interval_seconds then 1
  else (now - sub.next_payment_time) / sub.interval_seconds + 1

/-- The batched charge amount `amount_per_interval * due_intervals`
(saturating, as the source computes it). -/
def charge_amount_spec (sub : Subscription) (now : Nat) : Int :=
  satMul sub.amount_per_interval ((due_intervals_spec sub now : Nat) : Int)

/-- Claim C3 (confirmed): for every active subscription that is due
(`next_payment_time ≤ now`) with positive billing terms and an in-range
balance, `charge_subscription` computes `due_intervals` by the spec's
formula, transfers `amount_per_interval * due_intervals` in one call, debits
the balance by exactly that amount, and advances `next_payment_time` by
`due_intervals * interval_seconds`; when the balance is below the amount it
aborts with an insufficient-balance error (no state change — errors abort
the call before any write-back). -/
theorem charge_subscription_spec (sub : Subscription) (now : Nat)
    (hact : sub.active = true) (hdue : sub.next_payment_time ≤ now)
    (hint : 0 < sub.interval_seconds) (hamt : 0 < sub.amount_per_interval)
    (hbal0 : 0 ≤ sub.balance) (hbalM : sub.balance ≤ I128_MAX)
    (hb : now + sub.interval_seconds < U64_SIZE) :
    (sub.balance < charge_amount_spec sub now →
      charge_subscription sub now = .error .insufficientBalance) ∧
    (charge_amount_spec sub now ≤ sub.balance →
      charge_subscription sub now = .ok (charge_amount_spec sub now,
        { sub with
          balance := sub.balance - charge_amount_spec sub now,
          next_payment_time := sub.next_payment_time +
            due_intervals_spec sub now * sub.interval_seconds })) := by
  have hnow : now < U64_SIZE := by omega
  have hq := Nat.div_le_self (now - sub.next_payment_time) sub.interval_seconds
  have hqmul := Nat.div_mul_le_self (now - sub.next_payment_time) sub.interval_seconds
  have hA : u64add sub.next_payment_time sub.interval_seconds =
      sub.next_payment_time + sub.interval_seconds := u64add_eq (by omega)
  have hS : u64sub now sub.next_payment_time = now - sub.next_payment_time :=
    u64sub_eq hdue hnow
  have hQ : u64add ((now - sub.next_payment_time) / sub.interval_seconds) 1 =
      (now - sub.next_payment_time) / sub.interval_seconds + 1 :=
    u64add_eq (by omega)
  have hdi : due_intervals_spec sub now * sub.interval_seconds ≤
      (now - sub.next_payment_time) + sub.interval_seconds := by
    unfold due_intervals_spec
    split
    · omega
    · rw [Nat.add_mul, one_mul]; omega
  have hM2 : u64mul (due_intervals_spec sub now) sub.interval_seconds =
      due_intervals_spec sub now * sub.interval_seconds := u64mul_eq (by omega)
  have hA2 : u64add sub.next_payment_time
        (due_intervals_spec sub now * sub.interval_seconds) =
      sub.next_payment_time + due_intervals_spec sub now * sub.interval_seconds :=
    u64add_eq (by omega)
  have hcode : charge_subscription sub now =
      (if sub.balance < charge_amount_spec sub now then .error .insufficientBalance
       else .ok (charge_amount_spec sub now,
        { sub with
          balance := satSub sub.balance (charge_amount_spec sub now),
          next_payment_time := sub.next_payment_time +
            due_intervals_spec sub now * sub.interval_seconds })) := by
    unfold charge_subscription
    rw [if_neg (by simp [hact]), if_neg (not_lt.mpr hdue), hA, hS, hQ]
    have hcond : (if sub.next_payment_time + sub.interval_seconds ≤ now then
        (now - sub.next_payment_time) / sub.interval_seconds + 1 else 1) =
        due_intervals_spec sub now := by
      unfold due_intervals_spec
      rcases lt_or_le now (sub.next_payment_time + sub.interval_seconds) with h | h
      · rw [if_neg (not_le.mpr h), if_pos h]
      · rw [if_pos h, if_neg (not_lt.mpr h)]
    rw [hcond]
    simp only [hM2, hA2, charge_amount_spec]
  have hamt0 : 0 ≤ charge_amount_spec sub now :=
    satMul_nonneg hamt.le (Int.natCast_nonneg _)
  constructor
  · intro hlt
    rw [hcode, if_pos hlt]
  · intro hle
    rw [hcode, if_neg (not_lt.mpr hle),
      satSub_eq hbal0 hbalM hamt0 (le_trans hle hbalM)]

/-- The subscription of C3's witness: `interval_seconds = 100`,
`next_payment_time = 1000`, `amount_per_interval = 7`, `balance = 21`. -/
def exampleSub : Subscription :=
  { id := 1, subscriber := 1, receiver := 2, amount_per_interval := 7,
    interval_seconds := 100, next_payment_time := 1000, active := true,
    balance := 21 }

/-- Witness for C3: charging at `now = 1250` settles `due_intervals = 3`
(spec's `T + 250` example), transfers `21 = 3 · 7`, zeroes the balance, and
advances `next_payment_time` to `1300`; with balance `20` the charge fails. -/
theorem charge_subscription_spec_witness :
    charge_subscription exampleSub 1250 = .ok (charge_amount_spec exampleSub 1250,
      { exampleSub with
        balance := exampleSub.balance - charge_amount_spec exampleSub 1250,
        next_payment_time := exampleSub.next_payment_time +
          due_intervals_spec exampleSub 1250 * exampleSub.interval_seconds }) ∧
    due_intervals_spec exampleSub 1250 = 3 ∧
    charge_amount_spec exampleSub 1250 = 21 ∧
    charge_subscription { exampleSub with balance := 20 } 1250 =
      .error .insufficientBalance :=
  ⟨(charge_subscription_spec exampleSub 1250 rfl (by decide) (by decide) (by decide)
      (by decide) (by decide) (by decide)).2 (by decide),
    by decide, by decide,
    (charge_subscription_spec { exampleSub with balance := 20 } 1250 rfl (by decide)
      (by decide) (by decide) (by decide) (by decide) (by decide)).1 (by decide)⟩

/-! ## Claim C5 — second withdrawer's cap (corrected)

The code computes `remaining_deposit = deposit − (now − start)·Σ rate` from
the *unchanged* `deposit` field: a successful withdrawal by A does not
decrement `deposit`, so B's cap at the same instant is **not**
`deposit − total_distributed − A's transferred amount` as the claim states —
it is `deposit − total_distributed` unchanged.  The §8 numbers (A receives
`1000`, then B receives `2000`) still hold because there `2000` is below
both caps. -/

/-- A two-recipient stream (rates `10` and `20`, start `0`) with deposit
`4600`, chosen so that the claimed and the actual cap for the second
withdrawer differ. -/
def capStream : Stream :=
  { id := 4, sender := 0, recipients := [1, 2],
    recipient_rate_per_second := fun r =>
      if r = 1 then some 10 else if r = 2 then some 20 else none,
    deposit := 4600, start_time := 0,
    recipient_last_withdraw := fun _ => none,
    recipient_total_withdrawn := fun r => if r = 1 ∨ r = 2 then some 0 else none,
    is_active := true }

/-- Counterexample to C5 as stated: on `capStream` at `t = 100`
(`total_distributed = 3000`), A (recipient 1) withdraws `1000`; B's accrued is
`2000` and the claim's formula `min(2000, 4600 − 3000 − 1000) = 600`, but the
code pays B `min(2000, 4600 − 3000) = 1600 ≠ 600`: the second withdrawer's
cap does not reflect the first's transferred amount. -/
theorem second_withdraw_cap_counterexample :
    amountOf (withdraw_stream capStream 1 100) = some 1000 ∧
    amountOf (withdraw_stream (applyOp capStream (1, 100)) 2 100) = some 1600 ∧
    min ((100 : Int) * 20) (4600 - 3000 - 1000) = 600 ∧ (1600 : Int) ≠ 600 :=
  ⟨by decide, by decide, by decide, by decide⟩

/-- Claim C5 amended (proved): when recipient A successfully withdraws and
then recipient B (a different member) withdraws at the same timestamp, B's
payable amount is `min(B's accrued, deposit − total_distributed)` — computed
from the *original* stream's unchanged `deposit`, i.e. **not** reduced by A's
transferred amount; in the §8 example (rates 10/20, deposit 10000, `t = 100`,
A first) A receives `1000` and B receives `2000`. -/
theorem second_withdraw_cap (s : Stream) (T rA rB now : Nat) (a : Int) (s1 : Stream)
    (hwf : WF s T)
    (hA : withdraw_stream s rA now = .ok (a, s1)) (hact1 : s1.is_active = true)
    (hBm : rB ∈ s.recipients) (hBne : rB ≠ rA) (hBgt : lastW s rB < now) :
    payable_amount s1 rB now = min
        (satMul ((u64sub now (lastW s rB) : Nat) : Int) (rateOf s rB))
        (remaining_deposit s now) ∧
    (0 < payable_amount s1 rB now →
      withdraw_stream s1 rB now = .ok (payable_amount s1 rB now, withdraw_apply s1 rB now)) := by
  obtain ⟨ha, hm, hcase⟩ := withdraw_stream_ok_inv hA
  have hframe : payable_amount s1 rB now = payable_amount s rB now ∧
      lastW s1 rB = lastW s rB ∧ rateOf s1 rB = rateOf s rB ∧
      rB ∈ s1.recipients := by
    rcases hcase with ⟨_, _, rfl⟩ | ⟨_, _, _, _, rfl⟩
    · exact ⟨rfl, rfl, rfl, hBm⟩
    · refine ⟨?_, ?_, rfl, by rw [withdraw_apply_recipients]; exact hBm⟩
      · unfold payable_amount
        rw [lastW_withdraw_apply, if_neg hBne, remaining_deposit_withdraw_apply,
          rateOf_withdraw_apply]
      · rw [lastW_withdraw_apply, if_neg hBne]
  obtain ⟨hpay, hlast1, hrate1, hm1⟩ := hframe
  constructor
  · rw [hpay]; rfl
  · intro hpos
    have hrate : 0 < rateOf s1 rB := by rw [hrate1]; exact hwf.rate_pos rB hBm
    have hgt1 : lastW s1 rB < now := by rw [hlast1]; exact hBgt
    rw [withdraw_stream_run hact1 hm1 hgt1 hrate, if_neg (not_le.mpr hpos)]

/-- Witness for the amended C5 on the §8 example: A (recipient 1) withdraws
`1000` at `t = 100`; B's payable is then `min(2000, 10000 − 3000) = 2000`
and B's withdrawal succeeds with exactly that amount. -/
theorem second_withdraw_cap_witness :
    payable_amount (applyOp exampleStream (1, 100)) 2 100 = min
        (satMul ((u64sub 100 (lastW exampleStream 2) : Nat) : Int) (rateOf exampleStream 2))
        (remaining_deposit exampleStream 100) ∧
    payable_amount (applyOp exampleStream (1, 100)) 2 100 = 2000 ∧
    amountOf (withdraw_stream exampleStream 1 100) = some 1000 ∧
    withdraw_stream (applyOp exampleStream (1, 100)) 2 100 =
      .ok (payable_amount (applyOp exampleStream (1, 100)) 2 100,
        withdraw_apply (applyOp exampleStream (1, 100)) 2 100) := by
  have h := second_withdraw_cap exampleStream 0 1 2 100 1000
    (applyOp exampleStream (1, 100)) exampleStream_wf
    rfl (by decide) (by decide) (by decide) (by decide)
  exact ⟨h.1, by decide, by decide, h.2 (by decide)⟩

/-! ## Claim C7 — zero-elapsed no-op (corrected)

The `now ≤ last` branch is a benign `return 0` with no state change, exactly
as claimed.  But the claim's consequence — that a second withdrawal with no
time elapsed after a successful one always returns `0` — fails when the
first withdrawal exhausts the deposit: it permanently sets
`is_active = false`, so the second call aborts with the state error instead
of returning `0`. -/

/-- Counterexample to C7's second part as stated: on `exhaustStream` the
first withdrawal at `t = 99` succeeds with `10` and exhausts the deposit
(`remaining − 10 ≤ 0`), so the immediate second withdrawal at the same
timestamp fails with `StreamInactive` — it does not return `0`. -/
theorem withdraw_noop_counterexample :
    amountOf (withdraw_stream exhaustStream 3 99) = some 10 ∧
    (applyOp exhaustStream (3, 99)).is_active = false ∧
    withdraw_stream (applyOp exhaustStream (3, 99)) 3 99 = .error .streamInactive ∧
    amountOf (withdraw_stream (applyOp exhaustStream (3, 99)) 3 99) ≠ some 0 :=
  ⟨by decide, by decide,
    withdraw_stream_inactive 3 99 (by decide), by decide⟩

/-- Claim C7 amended (proved): for every active stream and member recipient,
if `now ≤` the recipient's last withdrawal time (defaulting to `start_time`
when absent), `withdraw_stream` returns `0` and leaves the record completely
unchanged — a benign no-op distinct from an error; consequently a second
withdrawal immediately after a successful one, with no time elapsed, returns
exactly `0` **provided the first left the stream active**, and aborts with
the `StreamInactive` state error when the first exhausted the deposit. -/
theorem withdraw_noop_spec (s : Stream) (r now : Nat) (a : Int) (s' : Stream) :
    (s.is_active = true → r ∈ s.recipients → now ≤ lastW s r →
      withdraw_stream s r now = .ok (0, s)) ∧
    (withdraw_stream s r now = .ok (a, s') → s'.is_active = true →
      withdraw_stream s' r now = .ok (0, s')) ∧
    (withdraw_stream s r now = .ok (a, s') → s'.is_active = false →
      withdraw_stream s' r now = .error .streamInactive) := by
  refine ⟨fun ha hm hle => withdraw_stream_noop now ha hm hle, ?_, ?_⟩
  · intro h hact'
    obtain ⟨ha, hm, hcase⟩ := withdraw_stream_ok_inv h
    rcases hcase with ⟨hle, _, rfl⟩ | ⟨hgt, _, _, _, rfl⟩
    · exact withdraw_stream_noop now ha hm hle
    · refine withdraw_stream_noop now hact' ?_ ?_
      · rw [withdraw_apply_recipients]; exact hm
      · rw [lastW_withdraw_apply, if_pos rfl]
  · intro _ hinact
    exact withdraw_stream_inactive r now hinact

/-- Witness for the amended C7: on the §8 stream, recipient `1` withdraws
`1000` at `t = 100` leaving the stream active; the immediate second call
returns exactly `0` with the record unchanged. -/
theorem withdraw_noop_spec_witness :
    withdraw_stream (applyOp exampleStream (1, 100)) 1 100 =
      .ok (0, applyOp exampleStream (1, 100)) ∧
    amountOf (withdraw_stream exampleStream 1 100) = some 1000 ∧
    (applyOp exampleStream (1, 100)).is_active = true :=
  ⟨(withdraw_noop_spec exampleStream 1 100 1000 (applyOp exampleStream (1, 100))).2.1
      rfl (by decide),
    by decide, by decide⟩

/-! ## Claim C8 — monotonic exhaustion -/

/-- The `is_active` flag written back by a successful withdrawal. -/
lemma withdraw_apply_is_active (s : Stream) (r now : Nat) :
    (withdraw_apply s r now).is_active =
      if satSub (remaining_deposit s now) (payable_amount s r now) ≤ 0 then false
      else s.is_active := rfl

/-- Claim C8 (confirmed): whenever a successful withdrawal leaves
`remaining_deposit − transferred_amount ≤ 0` (saturating subtraction, as the
source computes `new_remaining`), the written-back record has
`is_active = false`; and from any record with `is_active = false` both engine
operations on streams abort with the `StreamInactive` state error (the call
aborts before any write-back, so the record never returns to
`is_active = true`): every subsequent `withdraw_stream` call fails. -/
theorem monotonic_exhaustion (s : Stream) (r now t : Nat) (a : Int) (s' : Stream) :
    (withdraw_stream s r now = .ok (a, s') → 0 < a →
      satSub (remaining_deposit s now) a ≤ 0 → s'.is_active = false) ∧
    (s.is_active = false →
      withdraw_stream s r now = .error .streamInactive ∧
      cancel_stream s t = .error .streamInactive) := by
  constructor
  · intro h hpos hrem
    obtain ⟨ha, hm, hcase⟩ := withdraw_stream_ok_inv h
    rcases hcase with ⟨_, rfl, _⟩ | ⟨_, _, haeq, _, rfl⟩
    · exact absurd hpos (by omega)
    · rw [withdraw_apply_is_active, if_pos (haeq ▸ hrem)]
  · intro hinact
    exact ⟨withdraw_stream_inactive r now hinact, by simp [cancel_stream, hinact]⟩

/-- Witness for C8: the exhausting withdrawal on `exhaustStream` at `t = 99`
(pays `10`, `satSub 10 10 = 0 ≤ 0`) flips `is_active` to `false`, after which
both a later withdrawal and a later cancellation fail with `StreamInactive`. -/
theorem monotonic_exhaustion_witness :
    (applyOp exhaustStream (3, 99)).is_active = false ∧
    withdraw_stream (applyOp exhaustStream (3, 99)) 3 120 = .error .streamInactive ∧
    cancel_stream (applyOp exhaustStream (3, 99)) 130 = .error .streamInactive := by
  have h1 := (monotonic_exhaustion exhaustStream 3 99 0 10
    (applyOp exhaustStream (3, 99))).1 rfl (by decide) (by decide)
  have h2 := (monotonic_exhaustion (applyOp exhaustStream (3, 99)) 3 120 130 0
    exhaustStream).2 h1
  exact ⟨h1, h2.1, h2.2⟩

/-! ## Claim C6 — truncating rate derivation at creation -/

lemma derive_rates_error (period : Nat) :
    ∀ (l : List (Nat × Int)) (rates totals : Nat → Option Int),
      (∀ p ∈ l, 0 < p.2) → (∃ p ∈ l, p.2 / (period : Int) ≤ 0) →
      derive_rates period l rates totals = .error .invalidParameters
  | [], _, _, _, hbad => by simp at hbad
  | (r, amt) :: rest, rates, totals, hpos, hbad => by
    have hamt : 0 < amt := hpos (r, amt) (List.mem_cons_self _ _)
    unfold derive_rates
    rw [if_neg (not_le.mpr hamt)]
    by_cases h : amt / (period : Int) ≤ 0
    · rw [if_pos h]
    · rw [if_neg h]
      refine derive_rates_error period rest _ _
        (fun p hp => hpos p (List.mem_cons_of_mem _ hp)) ?_
      rcases hbad with ⟨p, hp, hple⟩
      rcases List.mem_cons.mp hp with rfl | hp'
      · exact absurd hple h
      · exact ⟨p, hp', hple⟩

lemma derive_rates_ok (period : Nat) :
    ∀ (l : List (Nat × Int)) (rates totals : Nat → Option Int),
      (∀ p ∈ l, 0 < p.2 ∧ 0 < p.2 / (period : Int)) →
      ∃ rates' totals',
        derive_rates period l rates totals = .ok (rates', totals') ∧
        (∀ k, k ∉ l.map Prod.fst → rates' k = rates k) ∧
        ((l.map Prod.fst).Nodup →
          ∀ p ∈ l, rates' p.1 = some (p.2 / (period : Int)))
  | [], rates, totals, _ => ⟨rates, totals, rfl, fun _ _ => rfl, by simp⟩
  | (r, amt) :: rest, rates, totals, h => by
    obtain ⟨h1, h2⟩ := h (r, amt) (List.mem_cons_self _ _)
    have hrest : ∀ p ∈ rest, 0 < p.2 ∧ 0 < p.2 / (period : Int) :=
      fun p hp => h p (List.mem_cons_of_mem _ hp)
    obtain ⟨rates', totals', heq, hframe, hval⟩ :=
      derive_rates_ok period rest (mset rates r (amt / (period : Int)))
        (mset totals r 0) hrest
    refine ⟨rates', totals', ?_, ?_, ?_⟩
    · unfold derive_rates
      rw [if_neg (not_le.mpr h1), if_neg (not_le.mpr h2)]
      exact heq
    · intro k hk
      rw [List.map_cons, List.mem_cons, not_or] at hk
      rw [hframe k hk.2]
      unfold mset
      rw [if_neg hk.1]
    · intro hnd p hp
      rw [List.map_cons, List.nodup_cons] at hnd
      rcases List.mem_cons.mp hp with rfl | hp'
      · show rates' r = some (amt / (period : Int))
        rw [hframe r hnd.1]
        unfold mset
        rw [if_pos rfl]
      · exact hval hnd.2 p hp'

/-- Claim C6 (confirmed): for every `create_stream` call passing the other
validations, the per-recipient rate is derived as
`amounts_per_period[i] / period_seconds` with truncating integer division,
and creation fails (nothing persisted — the call aborts) whenever any
derived rate is `≤ 0`; when all derived rates are positive, creation succeeds
and records exactly those rates. -/
theorem create_stream_rate_validation (id sender : Nat) (recipients : List Nat)
    (amounts : List Int) (period : Nat) (deposit : Int) (now : Nat)
    (hne : recipients ≠ []) (hlen : recipients.length = amounts.length)
    (hnd : recipients.Nodup) (hper : 0 < period) (hdep : 0 < deposit)
    (hamt : ∀ a ∈ amounts, 0 < a) :
    ((∃ a ∈ amounts, a / (period : Int) ≤ 0) →
      create_stream id sender recipients amounts period deposit now =
        .error .invalidParameters) ∧
    ((∀ a ∈ amounts, 0 < a / (period : Int)) →
      ∃ st, create_stream id sender recipients amounts period deposit now = .ok st ∧
        st.recipients = recipients ∧ st.deposit = deposit ∧
        st.start_time = now ∧ st.is_active = true ∧
        ∀ p ∈ recipients.zip amounts, rateOf st p.1 = p.2 / (period : Int)) := by
  have hcond : ∀ (res : Except Err Stream),
      (match derive_rates period (recipients.zip amounts)
          (fun _ => none) (fun _ => none) with
        | .error e => (.error e : Except Err Stream)
        | .ok (rates, totals) =>
          .ok { id := id, sender := sender, recipients := recipients,
                recipient_rate_per_second := rates, deposit := deposit,
                start_time := now, recipient_last_withdraw := fun _ => none,
                recipient_total_withdrawn := totals, is_active := true }) = res →
      create_stream id sender recipients amounts period deposit now = res := by
    intro res h
    unfold create_stream
    rw [if_neg (by simpa using hne), if_neg (by omega),
      if_neg (not_not_intro hnd), if_neg (by push_neg; omega)]
    exact h
  have hzip2 : ∀ p ∈ recipients.zip amounts, p.2 ∈ amounts := by
    intro p hp
    exact (List.of_mem_zip hp).2
  constructor
  · rintro ⟨a, ha, hale⟩
    obtain ⟨i, hi, hival⟩ := List.mem_iff_getElem.mp ha
    have hi' : i < (recipients.zip amounts).length := by
      rw [List.length_zip]; omega
    have hmem := List.getElem_mem hi'
    have hsnd : (recipients.zip amounts)[i].2 = a := by
      rw [List.getElem_zip]; exact hival
    refine hcond _ ?_
    rw [derive_rates_error period (recipients.zip amounts) _ _
      (fun p hp => hamt p.2 (hzip2 p hp))
      ⟨(recipients.zip amounts)[i], hmem, by rw [hsnd]; exact hale⟩]
  · intro hall
    obtain ⟨rates', totals', heq, _, hval⟩ :=
      derive_rates_ok period (recipients.zip amounts) (fun _ => none) (fun _ => none)
        (fun p hp => ⟨hamt p.2 (hzip2 p hp), hall p.2 (hzip2 p hp)⟩)
    have hfst : (recipients.zip amounts).map Prod.fst = recipients :=
      List.map_fst_zip recipients amounts (by omega)
    refine ⟨_, hcond _ (by rw [heq]), rfl, rfl, rfl, rfl, ?_⟩
    intro p hp
    have := hval (by rw [hfst]; exact hnd) p hp
    simp only [rateOf, this, Option.getD_some]

/-- Witness for C6: `amount_per_period = 5`, `period_seconds = 10` truncates
to rate `0` and is rejected; `amount_per_period = 10`, `period_seconds = 10`
succeeds with rate `1`. -/
theorem create_stream_rate_validation_witness :
    create_stream 1 0 [7] [5] 10 100 0 = .error .invalidParameters ∧
    ∃ st, create_stream 1 0 [7] [10] 10 100 0 = .ok st ∧ rateOf st 7 = 1 := by
  constructor
  · exact (create_stream_rate_validation 1 0 [7] [5] 10 100 0 (by decide) (by decide)
      (by decide) (by decide) (by decide) (by decide)).1 ⟨5, by decide, by decide⟩
  · obtain ⟨st, hok, _, _, _, _, hrates⟩ :=
      (create_stream_rate_validation 1 0 [7] [10] 10 100 0 (by decide) (by decide)
        (by decide) (by decide) (by decide) (by decide)).2 (by decide)
    refine ⟨st, hok, ?_⟩
    have := hrates (7, 10) (by decide)
    simpa using this

/-! ## Claim C9 — deposits into inactive subscriptions -/

/-- Claim C9 (confirmed): `deposit_to_subscription` checks only `amount > 0`
— it imposes no active-state precondition — so for every existing
subscription (in particular one with `active = false`) a positive deposit
succeeds and sets the balance to `saturating_add balance amount`, which
increases it by exactly `amount` whenever the sum is representable in i128. -/
theorem deposit_to_subscription_inactive_ok (sub : Subscription) (amount : Int)
    (hpos : 0 < amount) :
    deposit_to_subscription sub amount =
      .ok { sub with balance := satAdd sub.balance amount } ∧
    (0 ≤ sub.balance → sub.balance + amount ≤ I128_MAX →
      satAdd sub.balance amount = sub.balance + amount) := by
  constructor
  · unfold deposit_to_subscription
    rw [if_neg (not_le.mpr hpos)]
  · intro h0 hM
    exact (satAdd_eq_min (by omega)).trans (min_eq_left hM)

/-- Witness for C9: depositing `5` into a *cancelled* subscription (the
`exampleSub` record with `active := false`, balance `7`) succeeds and raises
the balance to `12`. -/
theorem deposit_to_subscription_inactive_ok_witness :
    deposit_to_subscription { exampleSub with active := false, balance := 7 } 5 =
      .ok { { exampleSub with active := false, balance := 7 } with
        balance := satAdd ({ exampleSub with active := false, balance := 7 }).balance 5 } ∧
    satAdd (7 : Int) 5 = 12 ∧
    ({ exampleSub with active := false, balance := 7 }).active = false :=
  ⟨(deposit_to_subscription_inactive_ok
      { exampleSub with active := false, balance := 7 } 5 (by decide)).1,
    by decide, by decide⟩

/-! ## Claim C10 — idempotent subscription cancellation -/

/-- Claim C10 (confirmed): `cancel_subscription` imposes no active-state
precondition: it succeeds for every existing subscription, transfers the
balance to the subscriber exactly when it is positive, and always writes back
`balance = 0`, `active = false`.  Cancelling the already-cancelled result
transfers nothing (its balance is `0`) and leaves the record unchanged, so
cancellation is idempotent rather than a state error. -/
theorem cancel_subscription_idempotent (sub : Subscription) :
    cancel_subscription sub =
      ((if 0 < sub.balance then some sub.balance else none),
        { sub with balance := 0, active := false }) ∧
    cancel_subscription (cancel_subscription sub).2 =
      (none, (cancel_subscription sub).2) :=
  ⟨rfl, rfl⟩

end Streamr
